import Mathlib

/-!
# Verification of the `onceForm` single-flight action guard

Shallow embedding of `src/lib/onceForm.ts` (the canonical variant with
cookie side-effect capture and replay).

The source is asynchronous TypeScript running on a single-threaded
cooperative event loop: tasks interleave only at explicit `await`
suspension points.  We model that as a small-step transition system:

* a **process** (`Proc`) is one invocation of the guarded handler
  (`wrapped` in the source); its `pc` records which suspension point it
  is parked at;
* a **job** (`Job`) is the single execution of the underlying handler
  for one token — the `RunningJob` of the source plus the bookkeeping
  needed to model its promise (remaining script, final result,
  settlement status);
* the module-level `running : Map<string, RunningJob>` becomes the
  `running` association list of the `State`;
* a **schedule** is a list of `Task`s; the scheduler may pick any
  runnable process or handler at each step, which over-approximates the
  interleavings the event loop can produce.

Everything the source does between two suspension points is one atomic
step, mirroring the cooperative model: in particular the whole
synchronous prefix of `wrapped` (token check, registry lookup, handler
start, registration) is a single step, because the source contains no
`await` there.
-/

namespace OnceForm

/-- Cookie serialize options. The source's `CookieOpts` is
`CookieSerializeOptions & { path: string }`; we keep the fields the
repository actually uses. -/
structure CookieOpts where
  path : String
  httpOnly : Bool := false
  maxAge : Option Nat := none
deriving DecidableEq, Repr

/-- `CookieOp = [name, value, opts]` from the source: one recorded
`cookies.set` call. -/
structure CookieOp where
  name : String
  value : String
  opts : CookieOpts
deriving DecidableEq, Repr

/-- The values a handler can produce or throw.  `actionFailure` is
SvelteKit's `fail(status, data)` (a returned value), `redirect` is the
object thrown by `kitRedirect` / `redirect(status, path)`, `error` an
arbitrary thrown exception. -/
inductive Val where
  | success (payload : String)
  | actionFailure (status : Nat) (message : String)
  | redirect (status : Nat) (path : String)
  | error (cause : String)
deriving DecidableEq, Repr

/-- How a promise settles: fulfilled with a value (`ok`, the handler
returned) or rejected (`thrown`, the handler threw). -/
inductive Res where
  | ok (v : Val)
  | thrown (e : Val)
deriving DecidableEq, Repr

/-- One atomic segment of the handler body between suspension points:
either a `cookies.set` call or an unobservable `await` (e.g. a timer). -/
inductive HStep where
  | setCookie (op : CookieOp)
  | yield
deriving DecidableEq, Repr

/-- The behaviour of one underlying handler: the observable actions it
performs, then how its promise settles. -/
structure Handler where
  steps : List HStep
  result : Res
deriving DecidableEq, Repr

/-- The source's `RunningJob` (`{ promise, ops }`) together with the
state needed to run its promise: the token it is registered under, the
index of the owning process (whose live response context receives each
cookie write as it is issued), the remaining handler script, the
eventual result, and the settlement status (`none` = still pending). -/
structure Job where
  token : String
  owner : Nat
  ops : List CookieOp
  script : List HStep
  result : Res
  settled : Option Res
deriving DecidableEq, Repr

/-- Program counter of one guarded call: `start` before its first
synchronous block runs, `waiting j` parked on `await existing.promise`
(duplicate path), `owner j` parked on the `return promise` of the owner
path, `done r` resolved with `r`. -/
inductive PC where
  | start
  | waiting (jobId : Nat)
  | owner (jobId : Nat)
  | done (r : Res)
deriving DecidableEq, Repr

/-- One invocation of the guarded action.  `token` is the value of the
`form_once` cookie in its request (`none` if absent), `handler` the
underlying handler this particular wrapper guards, `cookies` the cookie
writes applied to this caller's own response context so far, and
`joined` records (purely as bookkeeping for the statements below) which
job this call attached itself to. -/
structure Proc where
  token : Option String
  handler : Handler
  cookies : List CookieOp
  pc : PC
  joined : Option Nat
deriving DecidableEq, Repr

/-- Global state: the module-level `running` map (association list from
token to job id), the jobs ever created (jobs are never removed from
this list — removal from the *registry* is `running` deletion), and the
guarded calls. -/
structure State where
  running : List (String × Nat)
  jobs : List Job
  procs : List Proc
deriving DecidableEq, Repr

/-- `running.get(token)`. -/
def mapGet (m : List (String × Nat)) (t : String) : Option Nat :=
  match m with
  | [] => none
  | (k, v) :: rest => if k = t then some v else mapGet rest t

/-- `running.delete(token)`. -/
def mapDelete (m : List (String × Nat)) (t : String) : List (String × Nat) :=
  match m with
  | [] => []
  | (k, v) :: rest => if k = t then mapDelete rest t else (k, v) :: mapDelete rest t

/-- The outcome of `fail(400, { message: 'Form token missing' })`. -/
def tokenMissingRes : Res := .ok (.actionFailure 400 "Form token missing")

/-- A scheduler choice: advance guarded call `i`, or advance the handler
body of job `j`. -/
inductive Task where
  | proc (i : Nat)
  | job (j : Nat)
deriving DecidableEq, Repr

/-- The synchronous prefix of `wrapped` (source lines 74–110), run as
one atomic step because it contains no suspension point:
token check (`if (!token)` — a falsiness check, so an empty string also
takes the missing branch), registry lookup, and — when no entry exists —
handler start plus registration, with no suspension between the lookup
and `running.set`. -/
def startStep (s : State) (i : Nat) (p : Proc) : State :=
  match p.token with
  | none =>
    { s with procs := s.procs.set i { p with pc := .done tokenMissingRes } }
  | some t =>
    if t = "" then
      { s with procs := s.procs.set i { p with pc := .done tokenMissingRes } }
    else
      match mapGet s.running t with
      | some j =>
        { s with procs := s.procs.set i { p with pc := .waiting j, joined := some j } }
      | none =>
        let jobId := s.jobs.length
        let job : Job :=
          { token := t, owner := i, ops := [], script := p.handler.steps,
            result := p.handler.result, settled := none }
        { s with
          running := (t, jobId) :: s.running,
          jobs := s.jobs ++ [job],
          procs := s.procs.set i { p with pc := .owner jobId, joined := some jobId } }

/-- Advance the handler body of job `j` by one segment.  A `setCookie`
segment is the patched `event.cookies.set`: it appends the op to the
job's `ops` *and* forwards to the owner's real context (source lines
101–105).  An exhausted script settles the promise; the attached
`.finally(() => running.delete(token))` runs with it (source line 107),
so settlement and registry removal are one atomic step. -/
def jobStep (s : State) (j : Nat) (jb : Job) : State :=
  match jb.settled with
  | some _ => s
  | none =>
    match jb.script with
    | .setCookie op :: rest =>
      let s1 := { s with jobs := s.jobs.set j { jb with ops := jb.ops ++ [op], script := rest } }
      match s1.procs.get? jb.owner with
      | some po =>
        { s1 with procs := s1.procs.set jb.owner { po with cookies := po.cookies ++ [op] } }
      | none => s1
    | .yield :: rest =>
      { s with jobs := s.jobs.set j { jb with script := rest } }
    | [] =>
      { s with
        jobs := s.jobs.set j { jb with settled := some jb.result },
        running := mapDelete s.running jb.token }

/-- Advance guarded call `i` by one step.  A call parked on a pending
promise is blocked (the state is unchanged).  A duplicate that wakes up
replays the recorded ops onto its own context in order — both on the
fulfilled path (source lines 85–89) and on the rejected path (lines
90–95) — and then resolves with the shared result.  The owner resolves
with its own promise's result; its context already received every write
live. -/
def procStep (s : State) (i : Nat) : State :=
  match s.procs.get? i with
  | none => s
  | some p =>
    match p.pc with
    | .start => startStep s i p
    | .waiting j =>
      match s.jobs.get? j with
      | some jb =>
        match jb.settled with
        | some r =>
          { s with procs :=
              s.procs.set i { p with cookies := p.cookies ++ jb.ops, pc := .done r } }
        | none => s
      | none => s
    | .owner j =>
      match s.jobs.get? j with
      | some jb =>
        match jb.settled with
        | some r => { s with procs := s.procs.set i { p with pc := .done r } }
        | none => s
      | none => s
    | .done _ => s

/-- One scheduler step. -/
def step (s : State) : Task → State
  | .proc i => procStep s i
  | .job j =>
    match s.jobs.get? j with
    | some jb => jobStep s j jb
    | none => s

/-- Run a whole schedule. -/
def run (s : State) : List Task → State
  | [] => s
  | tk :: rest => run (step s tk) rest

/-- Initial state: empty registry, no job yet, every guarded call at its
entry point with a fresh response context.  `ps` lists, per call, the
request's token cookie and the underlying handler its wrapper guards. -/
def initState (ps : List (Option String × Handler)) : State :=
  { running := [],
    jobs := [],
    procs := ps.map fun q =>
      { token := q.1, handler := q.2, cookies := [], pc := .start, joined := none } }

/-- Number of times a handler body has been started for token `t`:
each job is created exactly when `handler(event)` is invoked
(source line 107), and jobs are never removed from `jobs`. -/
def invocationsFor (s : State) (t : String) : Nat :=
  (s.jobs.filter fun jb => jb.token == t).length

/-! ## The replay loop in isolation

The duplicate path replays the recorded ops with
`for (const [name, value, opts] of existing.ops) event.cookies.set(name, value, opts)`
(source lines 86–88, and again 91–93 on the rejected path).  To examine
what happens when the target context cannot apply an op, we embed the
loop with the external `cookies.set` of the target context abstracted as
a possibly-failing operation: the loop body applies every op
unconditionally and carries no per-op error handling, so a failure
propagates out of the loop. -/

def replayOps {Ctx : Type} (apply : CookieOp → Ctx → Except String Ctx) :
    List CookieOp → Ctx → Except String Ctx
  | [], c => .ok c
  | op :: rest, c =>
    match apply op c with
    | .ok c' => replayOps apply rest c'
    | .error e => .error e

/-- A target context, modelled as the list of cookie writes applied so
far, whose capability set excludes ops named `"blocked"`. -/
def fallibleSet (op : CookieOp) (c : List CookieOp) :
    Except String (List CookieOp) :=
  if op.name = "blocked" then .error "cannot apply" else .ok (c ++ [op])

def blockedOp : CookieOp := { name := "blocked", value := "v", opts := { path := "/" } }

/-! ## Concrete scenario constants (spec §8's concrete scenarios) -/

def demoOp1 : CookieOp := { name := "session", value := "s1", opts := { path := "/" } }

/-- A handler that writes one cookie and then redirects (as the example
login action does on success). -/
def demoHandler : Handler :=
  { steps := [.setCookie demoOp1], result := .thrown (.redirect 303 "/") }

/-- A second, distinct handler, to exercise two separately wrapped
actions sharing the module-level registry. -/
def gHandler : Handler :=
  { steps := [], result := .ok (.success "g") }

def demoPs : List (Option String × Handler) :=
  [(some "abc123", demoHandler), (some "abc123", demoHandler), (some "abc123", demoHandler)]

def demoSched : List Task :=
  [.proc 0, .proc 1, .proc 2, .job 0, .job 0, .proc 1, .proc 2, .proc 0]

/-- Two calls with the same token, run strictly one after the other: the
first job settles (and is cleaned up) before the second call starts. -/
def reusePs : List (Option String × Handler) :=
  [(some "tok", demoHandler), (some "tok", demoHandler)]

def reuseS : State := run (initState reusePs) [.proc 0, .job 0, .job 0]

/-- Two different wrapped actions (`demoHandler` and `gHandler`) whose
requests carry the same token. -/
def mixedPs : List (Option String × Handler) :=
  [(some "tok", demoHandler), (some "tok", gHandler)]

def mixedS : State := run (initState mixedPs) [.proc 0]

/-- A state with a busy registry plus one call with no token cookie. -/
def missingS : State :=
  run (initState [(some "tok", demoHandler), (none, gHandler)]) [.proc 0]

/-- A state with a busy registry plus one call whose token cookie is the
empty string. -/
def emptyS : State :=
  run (initState [(some "tok", demoHandler), (some "", gHandler)]) [.proc 0]

/-! ## Association-list lemmas for the `running` map -/

theorem mapGet_mem {m : List (String × Nat)} {t : String} {j : Nat}
    (h : mapGet m t = some j) : (t, j) ∈ m := by
  induction m with
  | nil => simp [mapGet] at h
  | cons e rest ih =>
    obtain ⟨k, v⟩ := e
    by_cases hk : k = t
    · subst hk
      simp [mapGet] at h
      simp [h]
    · simp [mapGet, hk] at h
      exact List.mem_cons_of_mem _ (ih h)

theorem mapGet_eq_none {m : List (String × Nat)} {t : String}
    (h : mapGet m t = none) : ∀ j, (t, j) ∉ m := by
  induction m with
  | nil => simp
  | cons e rest ih =>
    obtain ⟨k, v⟩ := e
    by_cases hk : k = t
    · subst hk; simp [mapGet] at h
    · simp [mapGet, hk] at h
      intro j hj
      rcases List.mem_cons.1 hj with h1 | h1
      · exact hk (congrArg Prod.fst h1).symm
      · exact ih h j h1

theorem mapDelete_sublist (m : List (String × Nat)) (t : String) :
    (mapDelete m t).Sublist m := by
  induction m with
  | nil => simp [mapDelete]
  | cons e rest ih =>
    obtain ⟨k, v⟩ := e
    simp only [mapDelete]
    by_cases hk : k = t
    · rw [if_pos hk]
      exact ih.cons (k, v)
    · rw [if_neg hk]
      exact ih.cons₂ (k, v)

theorem mem_mapDelete {m : List (String × Nat)} {t t' : String} {j' : Nat} :
    (t', j') ∈ mapDelete m t ↔ (t', j') ∈ m ∧ t' ≠ t := by
  induction m with
  | nil => simp [mapDelete]
  | cons e rest ih =>
    obtain ⟨k, v⟩ := e
    simp only [mapDelete]
    by_cases hk : k = t
    · rw [if_pos hk, ih]
      subst hk
      constructor
      · rintro ⟨h1, h2⟩
        exact ⟨List.mem_cons_of_mem _ h1, h2⟩
      · rintro ⟨h1, h2⟩
        rcases List.mem_cons.1 h1 with h1 | h1
        · cases h1
          exact absurd rfl h2
        · exact ⟨h1, h2⟩
    · rw [if_neg hk]
      constructor
      · intro h1
        rcases List.mem_cons.1 h1 with h1 | h1
        · cases h1
          exact ⟨List.mem_cons_self _ _, fun hh => hk hh⟩
        · obtain ⟨h2, h3⟩ := ih.1 h1
          exact ⟨List.mem_cons_of_mem _ h2, h3⟩
      · rintro ⟨h1, h2⟩
        rcases List.mem_cons.1 h1 with h1 | h1
        · cases h1
          exact List.mem_cons_self _ _
        · exact List.mem_cons_of_mem _ (ih.2 ⟨h1, h2⟩)

theorem nodup_key_eq {m : List (String × Nat)} (h : (m.map Prod.fst).Nodup)
    {t : String} {j j' : Nat} (h1 : (t, j) ∈ m) (h2 : (t, j') ∈ m) : j = j' := by
  induction m with
  | nil => simp at h1
  | cons e rest ih =>
    obtain ⟨k, v⟩ := e
    simp only [List.map_cons, List.nodup_cons] at h
    rcases List.mem_cons.1 h1 with ha | ha <;> rcases List.mem_cons.1 h2 with hb | hb
    · obtain ⟨-, ha2⟩ := Prod.mk.injEq .. ▸ ha
      obtain ⟨-, hb2⟩ := Prod.mk.injEq .. ▸ hb
      omega
    · obtain ⟨ha1, -⟩ := Prod.mk.injEq .. ▸ ha
      exact absurd (ha1 ▸ List.mem_map_of_mem Prod.fst hb) h.1
    · obtain ⟨hb1, -⟩ := Prod.mk.injEq .. ▸ hb
      exact absurd (hb1 ▸ List.mem_map_of_mem Prod.fst ha) h.1
    · exact ih h.2 ha hb

/-! ## The registry/process invariant

`Inv` collects everything that holds in every reachable state.  Its
first three fields are exactly the registry invariants of the spec
(claim C6); the remaining fields relate each guarded call's program
counter to the job it attached to, and are what the per-claim theorems
below extract. -/

structure Inv (s : State) : Prop where
  run_job : ∀ t j, (t, j) ∈ s.running →
    ∃ jb, s.jobs.get? j = some jb ∧ jb.token = t ∧ jb.settled = none
  run_keys : (s.running.map Prod.fst).Nodup
  job_run : ∀ j jb, s.jobs.get? j = some jb → jb.settled = none →
    (jb.token, j) ∈ s.running
  start_clean : ∀ i p, s.procs.get? i = some p → p.pc = .start →
    p.cookies = [] ∧ p.joined = none
  wait_pc : ∀ i p j, s.procs.get? i = some p → p.pc = .waiting j →
    p.cookies = [] ∧ p.joined = some j ∧
      ∃ jb, s.jobs.get? j = some jb ∧ p.token = some jb.token
  own_pc : ∀ i p j, s.procs.get? i = some p → p.pc = .owner j →
    ∃ jb, s.jobs.get? j = some jb ∧ jb.owner = i
  owner_pc : ∀ j jb, s.jobs.get? j = some jb →
    ∃ po, s.procs.get? jb.owner = some po ∧
      (po.pc = .owner j ∨ ∃ r, po.pc = .done r) ∧ po.joined = some j ∧
      po.cookies = jb.ops ∧ po.token = some jb.token
  done_res : ∀ i p r j, s.procs.get? i = some p → p.pc = .done r → p.joined = some j →
    ∃ jb, s.jobs.get? j = some jb ∧ jb.settled = some r ∧
      p.cookies = jb.ops ∧ p.token = some jb.token
  done_joined : ∀ i p r, s.procs.get? i = some p → p.pc = .done r → p.joined = none →
    p.token = none ∨ p.token = some ""

theorem initState_proc {ps : List (Option String × Handler)} {i : Nat} {p : Proc}
    (h : (initState ps).procs.get? i = some p) :
    p.cookies = [] ∧ p.joined = none ∧ p.pc = .start := by
  simp only [initState, List.get?_map, Option.map_eq_some'] at h
  obtain ⟨q, hq, rfl⟩ := h
  exact ⟨rfl, rfl, rfl⟩

theorem inv_initState (ps : List (Option String × Handler)) : Inv (initState ps) := by
  refine ⟨?_, ?_, ?_, ?_, ?_, ?_, ?_, ?_, ?_⟩
  · intro t j h
    simp [initState] at h
  · simp [initState]
  · intro j jb h
    simp [initState] at h
  · intro i p h _
    exact ⟨(initState_proc h).1, (initState_proc h).2.1⟩
  · intro i p j h hpc
    exact absurd ((initState_proc h).2.2.symm.trans hpc) (by simp)
  · intro i p j h hpc
    exact absurd ((initState_proc h).2.2.symm.trans hpc) (by simp)
  · intro j jb h
    simp [initState] at h
  · intro i p r j h hpc
    exact absurd ((initState_proc h).2.2.symm.trans hpc) (by simp)
  · intro i p r h hpc
    exact absurd ((initState_proc h).2.2.symm.trans hpc) (by simp)

/-! ## Equation lemmas: how each step rewrites the state -/

theorem startStep_missing {s : State} {i : Nat} {p : Proc} (h : p.token = none) :
    startStep s i p =
      { s with procs := s.procs.set i { p with pc := .done tokenMissingRes } } := by
  unfold startStep
  rw [h]

theorem startStep_empty {s : State} {i : Nat} {p : Proc} (h : p.token = some "") :
    startStep s i p =
      { s with procs := s.procs.set i { p with pc := .done tokenMissingRes } } := by
  unfold startStep
  rw [h]
  simp

theorem startStep_join {s : State} {i : Nat} {p : Proc} {t : String} {j : Nat}
    (h : p.token = some t) (ht : t ≠ "") (hj : mapGet s.running t = some j) :
    startStep s i p =
      { s with procs := s.procs.set i { p with pc := .waiting j, joined := some j } } := by
  unfold startStep
  rw [h]
  simp only [if_neg ht, hj]

theorem startStep_create {s : State} {i : Nat} {p : Proc} {t : String}
    (h : p.token = some t) (ht : t ≠ "") (hj : mapGet s.running t = none) :
    startStep s i p =
      { s with
        running := (t, s.jobs.length) :: s.running,
        jobs := s.jobs ++
          [{ token := t, owner := i, ops := [], script := p.handler.steps,
             result := p.handler.result, settled := none }],
        procs := s.procs.set i
          { p with pc := .owner s.jobs.length, joined := some s.jobs.length } } := by
  unfold startStep
  rw [h]
  simp only [if_neg ht, hj]

theorem jobStep_already {s : State} {j : Nat} {jb : Job} {r : Res}
    (h : jb.settled = some r) : jobStep s j jb = s := by
  unfold jobStep
  rw [h]

theorem jobStep_setCookie {s : State} {j : Nat} {jb : Job} {op : CookieOp}
    {rest : List HStep} {po : Proc}
    (h : jb.settled = none) (hs : jb.script = .setCookie op :: rest)
    (hpo : s.procs.get? jb.owner = some po) :
    jobStep s j jb =
      { s with
        jobs := s.jobs.set j { jb with ops := jb.ops ++ [op], script := rest },
        procs := s.procs.set jb.owner { po with cookies := po.cookies ++ [op] } } := by
  unfold jobStep
  rw [h, hs]
  simp only [hpo]

theorem jobStep_yield {s : State} {j : Nat} {jb : Job} {rest : List HStep}
    (h : jb.settled = none) (hs : jb.script = .yield :: rest) :
    jobStep s j jb = { s with jobs := s.jobs.set j { jb with script := rest } } := by
  unfold jobStep
  rw [h, hs]

theorem jobStep_settle {s : State} {j : Nat} {jb : Job}
    (h : jb.settled = none) (hs : jb.script = []) :
    jobStep s j jb =
      { s with
        jobs := s.jobs.set j { jb with settled := some jb.result },
        running := mapDelete s.running jb.token } := by
  unfold jobStep
  rw [h, hs]

theorem procStep_nop {s : State} {i : Nat} (h : s.procs.get? i = none) :
    procStep s i = s := by
  unfold procStep
  rw [h]

theorem procStep_start {s : State} {i : Nat} {p : Proc}
    (h : s.procs.get? i = some p) (hpc : p.pc = .start) :
    procStep s i = startStep s i p := by
  simp only [procStep, h, hpc]

theorem procStep_wait_settled {s : State} {i : Nat} {p : Proc} {j : Nat} {jb : Job} {r : Res}
    (h : s.procs.get? i = some p) (hpc : p.pc = .waiting j)
    (hjb : s.jobs.get? j = some jb) (hr : jb.settled = some r) :
    procStep s i =
      { s with procs :=
          s.procs.set i { p with cookies := p.cookies ++ jb.ops, pc := .done r } } := by
  simp only [procStep, h, hpc, hjb, hr]

theorem procStep_wait_pending {s : State} {i : Nat} {p : Proc} {j : Nat} {jb : Job}
    (h : s.procs.get? i = some p) (hpc : p.pc = .waiting j)
    (hjb : s.jobs.get? j = some jb) (hr : jb.settled = none) :
    procStep s i = s := by
  simp only [procStep, h, hpc, hjb, hr]

theorem procStep_wait_nojob {s : State} {i : Nat} {p : Proc} {j : Nat}
    (h : s.procs.get? i = some p) (hpc : p.pc = .waiting j)
    (hjb : s.jobs.get? j = none) : procStep s i = s := by
  simp only [procStep, h, hpc, hjb]

theorem procStep_owner_settled {s : State} {i : Nat} {p : Proc} {j : Nat} {jb : Job} {r : Res}
    (h : s.procs.get? i = some p) (hpc : p.pc = .owner j)
    (hjb : s.jobs.get? j = some jb) (hr : jb.settled = some r) :
    procStep s i = { s with procs := s.procs.set i { p with pc := .done r } } := by
  simp only [procStep, h, hpc, hjb, hr]

theorem procStep_owner_pending {s : State} {i : Nat} {p : Proc} {j : Nat} {jb : Job}
    (h : s.procs.get? i = some p) (hpc : p.pc = .owner j)
    (hjb : s.jobs.get? j = some jb) (hr : jb.settled = none) :
    procStep s i = s := by
  simp only [procStep, h, hpc, hjb, hr]

theorem procStep_owner_nojob {s : State} {i : Nat} {p : Proc} {j : Nat}
    (h : s.procs.get? i = some p) (hpc : p.pc = .owner j)
    (hjb : s.jobs.get? j = none) : procStep s i = s := by
  simp only [procStep, h, hpc, hjb]

theorem procStep_done {s : State} {i : Nat} {p : Proc} {r : Res}
    (h : s.procs.get? i = some p) (hpc : p.pc = .done r) : procStep s i = s := by
  simp only [procStep, h, hpc]

theorem step_proc (s : State) (i : Nat) : step s (.proc i) = procStep s i := rfl

theorem step_job_some {s : State} {j : Nat} {jb : Job} (h : s.jobs.get? j = some jb) :
    step s (.job j) = jobStep s j jb := by
  simp only [step, h]

theorem step_job_none {s : State} {j : Nat} (h : s.jobs.get? j = none) :
    step s (.job j) = s := by
  simp only [step, h]

/-! ## Index bookkeeping helpers -/

theorem get?_some_lt {α : Type} {l : List α} {n : Nat} {a : α}
    (h : l.get? n = some a) : n < l.length :=
  (List.get?_eq_some.1 h).1

theorem get?_set_same {α : Type} {l : List α} {i : Nat} {a : α} (b : α)
    (h : l.get? i = some a) : (l.set i b).get? i = some b :=
  List.get?_set_eq_of_lt b (get?_some_lt h)

theorem get?_set_other {α : Type} {l : List α} {i i' : Nat} (b : α) (h : i ≠ i') :
    (l.set i b).get? i' = l.get? i' :=
  List.get?_set_ne b l h

theorem get?_set_cases {α : Type} {l : List α} {i i' : Nat} {b x : α}
    (h : (l.set i b).get? i' = some x) :
    (i' = i ∧ x = b) ∨ (i' ≠ i ∧ l.get? i' = some x) := by
  by_cases hi : i' = i
  · subst hi
    have hlt : i' < l.length := by simpa using get?_some_lt h
    rw [List.get?_set_eq_of_lt b hlt] at h
    exact Or.inl ⟨rfl, (Option.some.injEq .. ▸ h).symm⟩
  · exact Or.inr ⟨hi, by rwa [List.get?_set_ne b l (fun hh => hi hh.symm)] at h⟩

theorem get?_append_of_some {α : Type} {l : List α} {n : Nat} {a : α} (x : α)
    (h : l.get? n = some a) : (l ++ [x]).get? n = some a := by
  rw [List.get?_append (get?_some_lt h)]
  exact h

theorem get?_append_len {α : Type} (l : List α) (x : α) :
    (l ++ [x]).get? l.length = some x := by
  rw [List.get?_append_right (Nat.le_refl _)]
  simp

theorem get?_append_cases {α : Type} {l : List α} {n : Nat} {x a : α}
    (h : (l ++ [x]).get? n = some a) :
    (n < l.length ∧ l.get? n = some a) ∨ (n = l.length ∧ a = x) := by
  by_cases hn : n < l.length
  · rw [List.get?_append hn] at h
    exact Or.inl ⟨hn, h⟩
  · have hle : l.length ≤ n := Nat.le_of_not_lt hn
    rw [List.get?_append_right hle] at h
    have hlt : n - l.length < 1 := by simpa using get?_some_lt h
    have hn' : n = l.length := by omega
    subst hn'
    simp at h
    exact Or.inr ⟨rfl, h.symm⟩

/-- A guarded call still at its entry point cannot already own a job. -/
theorem owner_ne_start {s : State} (hv : Inv s) {i : Nat} {p : Proc}
    (hp : s.procs.get? i = some p) (hpc : p.pc = .start)
    {j : Nat} {jb : Job} (hjb : s.jobs.get? j = some jb) : jb.owner ≠ i := by
  intro hoi
  obtain ⟨po, hpo, hcase, -⟩ := hv.owner_pc j jb hjb
  rw [hoi, hp] at hpo
  cases hpo
  rcases hcase with hc | ⟨r, hc⟩ <;> rw [hpc] at hc <;> cases hc

/-! ## Preservation of the invariant -/

theorem inv_startStep {s : State} {i : Nat} {p : Proc}
    (hv : Inv s) (hp : s.procs.get? i = some p) (hpc : p.pc = .start) :
    Inv (startStep s i p) := by
  have hclean := hv.start_clean i p hp hpc
  rcases htok : p.token with _ | t
  · -- token cookie absent: resolve with the fixed failure, touch nothing else
    rw [startStep_missing htok]
    refine ⟨hv.run_job, hv.run_keys, hv.job_run, ?_, ?_, ?_, ?_, ?_, ?_⟩
    · intro i' p' hp' hpc'
      rcases get?_set_cases hp' with ⟨hi, hx⟩ | ⟨hi, hx⟩
      · subst hx; cases hpc'
      · exact hv.start_clean i' p' hx hpc'
    · intro i' p' j hp' hpc'
      rcases get?_set_cases hp' with ⟨hi, hx⟩ | ⟨hi, hx⟩
      · subst hx; cases hpc'
      · exact hv.wait_pc i' p' j hx hpc'
    · intro i' p' j hp' hpc'
      rcases get?_set_cases hp' with ⟨hi, hx⟩ | ⟨hi, hx⟩
      · subst hx; cases hpc'
      · exact hv.own_pc i' p' j hx hpc'
    · intro j jb hjb
      obtain ⟨po, hpo, hcase, hjo, hops, htk⟩ := hv.owner_pc j jb hjb
      have hne : jb.owner ≠ i := owner_ne_start hv hp hpc hjb
      exact ⟨po, by rw [get?_set_other _ (fun hh => hne hh.symm)]; exact hpo,
        hcase, hjo, hops, htk⟩
    · intro i' p' r j hp' hpc' hj'
      rcases get?_set_cases hp' with ⟨hi, hx⟩ | ⟨hi, hx⟩
      · subst hx
        rw [hclean.2] at hj'
        cases hj'
      · exact hv.done_res i' p' r j hx hpc' hj'
    · intro i' p' r hp' hpc' hj'
      rcases get?_set_cases hp' with ⟨hi, hx⟩ | ⟨hi, hx⟩
      · subst hx
        exact Or.inl htok
      · exact hv.done_joined i' p' r hx hpc' hj'
  · by_cases ht : t = ""
    · -- empty token is falsy: same missing-token branch
      subst ht
      rw [startStep_empty htok]
      refine ⟨hv.run_job, hv.run_keys, hv.job_run, ?_, ?_, ?_, ?_, ?_, ?_⟩
      · intro i' p' hp' hpc'
        rcases get?_set_cases hp' with ⟨hi, hx⟩ | ⟨hi, hx⟩
        · subst hx; cases hpc'
        · exact hv.start_clean i' p' hx hpc'
      · intro i' p' j hp' hpc'
        rcases get?_set_cases hp' with ⟨hi, hx⟩ | ⟨hi, hx⟩
        · subst hx; cases hpc'
        · exact hv.wait_pc i' p' j hx hpc'
      · intro i' p' j hp' hpc'
        rcases get?_set_cases hp' with ⟨hi, hx⟩ | ⟨hi, hx⟩
        · subst hx; cases hpc'
        · exact hv.own_pc i' p' j hx hpc'
      · intro j jb hjb
        obtain ⟨po, hpo, hcase, hjo, hops, htk⟩ := hv.owner_pc j jb hjb
        have hne : jb.owner ≠ i := owner_ne_start hv hp hpc hjb
        exact ⟨po, by rw [get?_set_other _ (fun hh => hne hh.symm)]; exact hpo,
          hcase, hjo, hops, htk⟩
      · intro i' p' r j hp' hpc' hj'
        rcases get?_set_cases hp' with ⟨hi, hx⟩ | ⟨hi, hx⟩
        · subst hx
          rw [hclean.2] at hj'
          cases hj'
        · exact hv.done_res i' p' r j hx hpc' hj'
      · intro i' p' r hp' hpc' hj'
        rcases get?_set_cases hp' with ⟨hi, hx⟩ | ⟨hi, hx⟩
        · subst hx
          exact Or.inr htok
        · exact hv.done_joined i' p' r hx hpc' hj'
    · rcases hrun : mapGet s.running t with _ | j
      · -- no entry: create, start and register the job atomically
        rw [startStep_create htok ht hrun]
        have hnomem := mapGet_eq_none hrun
        refine ⟨?_, ?_, ?_, ?_, ?_, ?_, ?_, ?_, ?_⟩
        · intro t' j' hmem
          rcases List.mem_cons.1 hmem with he | he
          · cases he
            exact ⟨_, get?_append_len _ _, rfl, rfl⟩
          · obtain ⟨jb, hjb, htk, hst⟩ := hv.run_job t' j' he
            exact ⟨jb, get?_append_of_some _ hjb, htk, hst⟩
        · refine List.Nodup.cons ?_ hv.run_keys
          intro hmem
          obtain ⟨⟨a, b⟩, hab, hfst⟩ := List.mem_map.1 hmem
          exact hnomem b (by rwa [show a = t from hfst] at hab)
        · intro j' jb hjb hst
          rcases get?_append_cases hjb with ⟨hlt, hjb'⟩ | ⟨hlen, hjb'⟩
          · exact List.mem_cons_of_mem _ (hv.job_run j' jb hjb' hst)
          · subst hlen
            subst hjb'
            exact List.mem_cons_self _ _
        · intro i' p' hp' hpc'
          rcases get?_set_cases hp' with ⟨hi, hx⟩ | ⟨hi, hx⟩
          · subst hx; cases hpc'
          · exact hv.start_clean i' p' hx hpc'
        · intro i' p' j' hp' hpc'
          rcases get?_set_cases hp' with ⟨hi, hx⟩ | ⟨hi, hx⟩
          · subst hx; cases hpc'
          · obtain ⟨hc, hj, jb, hjb, htk⟩ := hv.wait_pc i' p' j' hx hpc'
            exact ⟨hc, hj, jb, get?_append_of_some _ hjb, htk⟩
        · intro i' p' j' hp' hpc'
          rcases get?_set_cases hp' with ⟨hi, hx⟩ | ⟨hi, hx⟩
          · subst hx
            cases hpc'
            subst hi
            exact ⟨_, get?_append_len _ _, rfl⟩
          · obtain ⟨jb, hjb, ho⟩ := hv.own_pc i' p' j' hx hpc'
            exact ⟨jb, get?_append_of_some _ hjb, ho⟩
        · intro j' jb hjb
          rcases get?_append_cases hjb with ⟨hlt, hjb'⟩ | ⟨hlen, hjb'⟩
          · obtain ⟨po, hpo, hcase, hjo, hops, htk⟩ := hv.owner_pc j' jb hjb'
            have hne : jb.owner ≠ i := owner_ne_start hv hp hpc hjb'
            exact ⟨po, by rw [get?_set_other _ (fun hh => hne hh.symm)]; exact hpo,
              hcase, hjo, hops, htk⟩
          · subst hjb'
            refine ⟨_, get?_set_same _ hp, Or.inl (by rw [hlen]), by rw [hlen], ?_, ?_⟩
            · exact hclean.1
            · exact htok
        · intro i' p' r j' hp' hpc' hj'
          rcases get?_set_cases hp' with ⟨hi, hx⟩ | ⟨hi, hx⟩
          · subst hx; cases hpc'
          · obtain ⟨jb, hjb, hst, hops, htk⟩ := hv.done_res i' p' r j' hx hpc' hj'
            exact ⟨jb, get?_append_of_some _ hjb, hst, hops, htk⟩
        · intro i' p' r hp' hpc' hj'
          rcases get?_set_cases hp' with ⟨hi, hx⟩ | ⟨hi, hx⟩
          · subst hx; cases hpc'
          · exact hv.done_joined i' p' r hx hpc' hj'
      · -- an entry exists: join it, invoking nothing
        rw [startStep_join htok ht hrun]
        obtain ⟨jb, hjb, htk, hst⟩ := hv.run_job t j (mapGet_mem hrun)
        refine ⟨hv.run_job, hv.run_keys, hv.job_run, ?_, ?_, ?_, ?_, ?_, ?_⟩
        · intro i' p' hp' hpc'
          rcases get?_set_cases hp' with ⟨hi, hx⟩ | ⟨hi, hx⟩
          · subst hx; cases hpc'
          · exact hv.start_clean i' p' hx hpc'
        · intro i' p' j' hp' hpc'
          rcases get?_set_cases hp' with ⟨hi, hx⟩ | ⟨hi, hx⟩
          · subst hx
            cases hpc'
            exact ⟨hclean.1, rfl, jb, hjb, by rw [htok, htk]⟩
          · exact hv.wait_pc i' p' j' hx hpc'
        · intro i' p' j' hp' hpc'
          rcases get?_set_cases hp' with ⟨hi, hx⟩ | ⟨hi, hx⟩
          · subst hx; cases hpc'
          · exact hv.own_pc i' p' j' hx hpc'
        · intro j' jb' hjb'
          obtain ⟨po, hpo, hcase, hjo, hops, htk'⟩ := hv.owner_pc j' jb' hjb'
          have hne : jb'.owner ≠ i := owner_ne_start hv hp hpc hjb'
          exact ⟨po, by rw [get?_set_other _ (fun hh => hne hh.symm)]; exact hpo,
            hcase, hjo, hops, htk'⟩
        · intro i' p' r j' hp' hpc' hj'
          rcases get?_set_cases hp' with ⟨hi, hx⟩ | ⟨hi, hx⟩
          · subst hx; cases hpc'
          · exact hv.done_res i' p' r j' hx hpc' hj'
        · intro i' p' r hp' hpc' hj'
          rcases get?_set_cases hp' with ⟨hi, hx⟩ | ⟨hi, hx⟩
          · subst hx; cases hpc'
          · exact hv.done_joined i' p' r hx hpc' hj'

/-- Identify the data `owner_pc` gives once the owner's record is known. -/
theorem owner_pc_cases {s : State} (hv : Inv s) {j : Nat} {jb : Job}
    (hjb : s.jobs.get? j = some jb) {p : Proc}
    (hp : s.procs.get? jb.owner = some p) :
    (p.pc = .owner j ∨ ∃ r, p.pc = .done r) ∧ p.joined = some j ∧
      p.cookies = jb.ops ∧ p.token = some jb.token := by
  obtain ⟨po, hpo, hcase, hjo, hops, htk⟩ := hv.owner_pc j jb hjb
  rw [hp] at hpo
  cases hpo
  exact ⟨hcase, hjo, hops, htk⟩

/-- A guarded call parked on someone else's job owns no job itself. -/
theorem owner_ne_waiting {s : State} (hv : Inv s) {i : Nat} {p : Proc} {j0 : Nat}
    (hp : s.procs.get? i = some p) (hpc : p.pc = .waiting j0)
    {j : Nat} {jb : Job} (hjb : s.jobs.get? j = some jb) : jb.owner ≠ i := by
  intro hoi
  obtain ⟨hcase, -, -, -⟩ := owner_pc_cases hv hjb (by rwa [hoi])
  rcases hcase with hc | ⟨r, hc⟩ <;> rw [hpc] at hc <;> cases hc

/-- While a job is pending its owner is still parked at `return promise`. -/
theorem owner_pc_owner {s : State} (hv : Inv s) {j : Nat} {jb : Job}
    (hjb : s.jobs.get? j = some jb) (hpend : jb.settled = none) {po : Proc}
    (hpo : s.procs.get? jb.owner = some po) :
    po.pc = .owner j ∧ po.joined = some j ∧ po.cookies = jb.ops ∧
      po.token = some jb.token := by
  obtain ⟨hcase, hjo, hops, htk⟩ := owner_pc_cases hv hjb hpo
  rcases hcase with hc | ⟨r, hc⟩
  · exact ⟨hc, hjo, hops, htk⟩
  · obtain ⟨jb', hjb', hst, -, -⟩ := hv.done_res jb.owner po r j hpo hc hjo
    rw [hjb] at hjb'
    cases hjb'
    rw [hpend] at hst
    cases hst

/-- Distinct jobs have distinct owners. -/
theorem owner_unique {s : State} (hv : Inv s) {j j' : Nat} {jb jb' : Job}
    (hjb : s.jobs.get? j = some jb) (hjb' : s.jobs.get? j' = some jb')
    (ho : jb.owner = jb'.owner) : j = j' := by
  obtain ⟨po, hpo, -, hjo, -, -⟩ := hv.owner_pc j jb hjb
  obtain ⟨po', hpo', -, hjo', -, -⟩ := hv.owner_pc j' jb' hjb'
  rw [ho] at hpo
  rw [hpo] at hpo'
  cases hpo'
  rw [hjo] at hjo'
  cases hjo'
  rfl

theorem inv_procStep {s : State} (hv : Inv s) (i : Nat) : Inv (procStep s i) := by
  rcases hp : s.procs.get? i with _ | p
  · rw [procStep_nop hp]
    exact hv
  · rcases hpc : p.pc with _ | j | j | r
    · rw [procStep_start hp hpc]
      exact inv_startStep hv hp hpc
    · rcases hjb : s.jobs.get? j with _ | jb
      · rw [procStep_wait_nojob hp hpc hjb]
        exact hv
      · rcases hr : jb.settled with _ | r
        · rw [procStep_wait_pending hp hpc hjb hr]
          exact hv
        · -- a duplicate wakes up: replay the ops, resolve with the shared result
          rw [procStep_wait_settled hp hpc hjb hr]
          obtain ⟨hck, hjo, jb', hjb', htk⟩ := hv.wait_pc i p j hp hpc
          rw [hjb] at hjb'
          cases hjb'
          refine ⟨hv.run_job, hv.run_keys, hv.job_run, ?_, ?_, ?_, ?_, ?_, ?_⟩
          · intro i' p' hp' hpc'
            rcases get?_set_cases hp' with ⟨hi, hx⟩ | ⟨hi, hx⟩
            · subst hx; cases hpc'
            · exact hv.start_clean i' p' hx hpc'
          · intro i' p' j' hp' hpc'
            rcases get?_set_cases hp' with ⟨hi, hx⟩ | ⟨hi, hx⟩
            · subst hx; cases hpc'
            · exact hv.wait_pc i' p' j' hx hpc'
          · intro i' p' j' hp' hpc'
            rcases get?_set_cases hp' with ⟨hi, hx⟩ | ⟨hi, hx⟩
            · subst hx; cases hpc'
            · exact hv.own_pc i' p' j' hx hpc'
          · intro j' jb'' hjb''
            obtain ⟨po, hpo, hcase, hjo', hops, htk'⟩ := hv.owner_pc j' jb'' hjb''
            have hne : jb''.owner ≠ i := owner_ne_waiting hv hp hpc hjb''
            exact ⟨po, by rw [get?_set_other _ (fun hh => hne hh.symm)]; exact hpo,
              hcase, hjo', hops, htk'⟩
          · intro i' p' r' j' hp' hpc' hj'
            rcases get?_set_cases hp' with ⟨hi, hx⟩ | ⟨hi, hx⟩
            · subst hx
              cases hpc'
              rw [hjo] at hj'
              cases hj'
              exact ⟨jb, hjb, hr, by rw [hck]; simp, htk⟩
            · exact hv.done_res i' p' r' j' hx hpc' hj'
          · intro i' p' r' hp' hpc' hj'
            rcases get?_set_cases hp' with ⟨hi, hx⟩ | ⟨hi, hx⟩
            · subst hx
              rw [hjo] at hj'
              cases hj'
            · exact hv.done_joined i' p' r' hx hpc' hj'
    · rcases hjb : s.jobs.get? j with _ | jb
      · rw [procStep_owner_nojob hp hpc hjb]
        exact hv
      · rcases hr : jb.settled with _ | r
        · rw [procStep_owner_pending hp hpc hjb hr]
          exact hv
        · -- the owner's own promise has settled: resolve with its result
          rw [procStep_owner_settled hp hpc hjb hr]
          obtain ⟨jb', hjb', how⟩ := hv.own_pc i p j hp hpc
          rw [hjb] at hjb'
          cases hjb'
          obtain ⟨-, hjo, hops, htk⟩ := owner_pc_cases hv hjb (by rwa [how])
          refine ⟨hv.run_job, hv.run_keys, hv.job_run, ?_, ?_, ?_, ?_, ?_, ?_⟩
          · intro i' p' hp' hpc'
            rcases get?_set_cases hp' with ⟨hi, hx⟩ | ⟨hi, hx⟩
            · subst hx; cases hpc'
            · exact hv.start_clean i' p' hx hpc'
          · intro i' p' j' hp' hpc'
            rcases get?_set_cases hp' with ⟨hi, hx⟩ | ⟨hi, hx⟩
            · subst hx; cases hpc'
            · exact hv.wait_pc i' p' j' hx hpc'
          · intro i' p' j' hp' hpc'
            rcases get?_set_cases hp' with ⟨hi, hx⟩ | ⟨hi, hx⟩
            · subst hx; cases hpc'
            · exact hv.own_pc i' p' j' hx hpc'
          · intro j' jb'' hjb''
            obtain ⟨po, hpo, hcase, hjo', hops', htk'⟩ := hv.owner_pc j' jb'' hjb''
            by_cases hoi : jb''.owner = i
            · rw [hoi, hp] at hpo
              cases hpo
              have hjj : j' = j := by
                have := owner_unique hv hjb'' hjb (by rw [hoi, how])
                exact this
              subst hjj
              refine ⟨{ p with pc := .done r }, ?_, Or.inr ⟨r, rfl⟩, hjo', hops', htk'⟩
              rw [hoi]
              exact get?_set_same _ hp
            · exact ⟨po, by rw [get?_set_other _ (fun hh => hoi hh.symm)]; exact hpo,
                hcase, hjo', hops', htk'⟩
          · intro i' p' r' j' hp' hpc' hj'
            rcases get?_set_cases hp' with ⟨hi, hx⟩ | ⟨hi, hx⟩
            · subst hx
              cases hpc'
              rw [hjo] at hj'
              cases hj'
              exact ⟨jb, hjb, hr, hops, htk⟩
            · exact hv.done_res i' p' r' j' hx hpc' hj'
          · intro i' p' r' hp' hpc' hj'
            rcases get?_set_cases hp' with ⟨hi, hx⟩ | ⟨hi, hx⟩
            · subst hx
              rw [hjo] at hj'
              cases hj'
            · exact hv.done_joined i' p' r' hx hpc' hj'
    · rw [procStep_done hp hpc]
      exact hv

theorem inv_jobStep {s : State} (hv : Inv s) {j : Nat} {jb : Job}
    (hjb : s.jobs.get? j = some jb) : Inv (jobStep s j jb) := by
  rcases hset : jb.settled with _ | r0
  · rcases hsc : jb.script with _ | ⟨h1, rest⟩
    · -- script exhausted: settle the promise and delete the registry entry
      rw [jobStep_settle hset hsc]
      refine ⟨?_, ?_, ?_, hv.start_clean, ?_, ?_, ?_, ?_, hv.done_joined⟩
      · intro t' j' hmem
        obtain ⟨hm, hne⟩ := mem_mapDelete.1 hmem
        obtain ⟨jb0, hjb0, htk0, hst0⟩ := hv.run_job t' j' hm
        by_cases hjj : j' = j
        · subst hjj
          rw [hjb] at hjb0
          cases hjb0
          exact absurd htk0 (fun hh => hne (hh ▸ rfl))
        · exact ⟨jb0, by rw [get?_set_other _ (fun hh => hjj hh.symm)]; exact hjb0,
            htk0, hst0⟩
      · exact hv.run_keys.sublist ((mapDelete_sublist _ _).map Prod.fst)
      · intro j' jb0 hjb0 hpend
        rcases get?_set_cases hjb0 with ⟨hjj, hx⟩ | ⟨hjj, hx⟩
        · subst hx
          cases hpend
        · have hm := hv.job_run j' jb0 hx hpend
          refine mem_mapDelete.2 ⟨hm, ?_⟩
          intro hh
          have hm2 := hv.job_run j jb hjb hset
          rw [hh] at hm
          exact hjj (nodup_key_eq hv.run_keys hm hm2)
      · intro i' p' j' hp' hpc'
        obtain ⟨hck, hjo, jb0, hjb0, htk0⟩ := hv.wait_pc i' p' j' hp' hpc'
        by_cases hjj : j' = j
        · subst hjj
          rw [hjb] at hjb0
          cases hjb0
          exact ⟨hck, hjo, _, get?_set_same _ hjb, htk0⟩
        · exact ⟨hck, hjo, jb0, by rw [get?_set_other _ (fun hh => hjj hh.symm)]; exact hjb0,
            htk0⟩
      · intro i' p' j' hp' hpc'
        obtain ⟨jb0, hjb0, how⟩ := hv.own_pc i' p' j' hp' hpc'
        by_cases hjj : j' = j
        · subst hjj
          rw [hjb] at hjb0
          cases hjb0
          exact ⟨_, get?_set_same _ hjb, how⟩
        · exact ⟨jb0, by rw [get?_set_other _ (fun hh => hjj hh.symm)]; exact hjb0, how⟩
      · intro j' jb0 hjb0
        rcases get?_set_cases hjb0 with ⟨hjj, hx⟩ | ⟨hjj, hx⟩
        · subst hx
          subst hjj
          obtain ⟨po, hpo, hcase, hjo, hops, htk0⟩ := hv.owner_pc j' jb hjb
          exact ⟨po, hpo, hcase, hjo, hops, htk0⟩
        · exact hv.owner_pc j' jb0 hx
      · intro i' p' r' j' hp' hpc' hj'
        obtain ⟨jb0, hjb0, hst0, hops0, htk0⟩ := hv.done_res i' p' r' j' hp' hpc' hj'
        by_cases hjj : j' = j
        · subst hjj
          rw [hjb] at hjb0
          cases hjb0
          rw [hset] at hst0
          cases hst0
        · exact ⟨jb0, by rw [get?_set_other _ (fun hh => hjj hh.symm)]; exact hjb0,
            hst0, hops0, htk0⟩
    · cases h1 with
      | setCookie op =>
        -- the patched cookies.set: record the op and write it to the owner live
        obtain ⟨po, hpo, -, -, -, -⟩ := hv.owner_pc j jb hjb
        obtain ⟨hpow, hjow, hckw, htkw⟩ := owner_pc_owner hv hjb hset hpo
        rw [jobStep_setCookie hset hsc hpo]
        refine ⟨?_, hv.run_keys, ?_, ?_, ?_, ?_, ?_, ?_, ?_⟩
        · intro t' j' hmem
          obtain ⟨jb0, hjb0, htk0, hst0⟩ := hv.run_job t' j' hmem
          by_cases hjj : j' = j
          · subst hjj
            rw [hjb] at hjb0
            cases hjb0
            exact ⟨_, get?_set_same _ hjb, htk0, hst0⟩
          · exact ⟨jb0, by rw [get?_set_other _ (fun hh => hjj hh.symm)]; exact hjb0,
              htk0, hst0⟩
        · intro j' jb0 hjb0 hpend
          rcases get?_set_cases hjb0 with ⟨hjj, hx⟩ | ⟨hjj, hx⟩
          · subst hx
            subst hjj
            exact hv.job_run j' jb hjb hset
          · exact hv.job_run j' jb0 hx hpend
        · intro i' p' hp' hpc'
          rcases get?_set_cases hp' with ⟨hi, hx⟩ | ⟨hi, hx⟩
          · subst hx
            exact absurd (hpow.symm.trans hpc') (by simp)
          · exact hv.start_clean i' p' hx hpc'
        · intro i' p' j' hp' hpc'
          rcases get?_set_cases hp' with ⟨hi, hx⟩ | ⟨hi, hx⟩
          · subst hx
            exact absurd (hpow.symm.trans hpc') (by simp)
          · obtain ⟨hck, hjo, jb0, hjb0, htk0⟩ := hv.wait_pc i' p' j' hx hpc'
            by_cases hjj : j' = j
            · subst hjj
              rw [hjb] at hjb0
              cases hjb0
              exact ⟨hck, hjo, _, get?_set_same _ hjb, htk0⟩
            · exact ⟨hck, hjo, jb0,
                by rw [get?_set_other _ (fun hh => hjj hh.symm)]; exact hjb0, htk0⟩
        · intro i' p' j' hp' hpc'
          rcases get?_set_cases hp' with ⟨hi, hx⟩ | ⟨hi, hx⟩
          · subst hx
            have hj' : j' = j := by
              have := hpow.symm.trans hpc'
              cases this
              rfl
            subst hj'
            subst hi
            exact ⟨_, get?_set_same _ hjb, rfl⟩
          · obtain ⟨jb0, hjb0, how⟩ := hv.own_pc i' p' j' hx hpc'
            by_cases hjj : j' = j
            · subst hjj
              rw [hjb] at hjb0
              cases hjb0
              exact ⟨_, get?_set_same _ hjb, how⟩
            · exact ⟨jb0, by rw [get?_set_other _ (fun hh => hjj hh.symm)]; exact hjb0, how⟩
        · intro j' jb0 hjb0
          rcases get?_set_cases hjb0 with ⟨hjj, hx⟩ | ⟨hjj, hx⟩
          · subst hx
            subst hjj
            refine ⟨_, get?_set_same _ hpo, Or.inl hpow, hjow, ?_, htkw⟩
            rw [hckw]
          · obtain ⟨po0, hpo0, hcase0, hjo0, hops0, htk0⟩ := hv.owner_pc j' jb0 hx
            have hne : jb0.owner ≠ jb.owner := by
              intro hh
              exact hjj (owner_unique hv hx hjb hh)
            exact ⟨po0, by rw [get?_set_other _ (fun hh => hne hh.symm)]; exact hpo0,
              hcase0, hjo0, hops0, htk0⟩
        · intro i' p' r' j' hp' hpc' hj'
          rcases get?_set_cases hp' with ⟨hi, hx⟩ | ⟨hi, hx⟩
          · subst hx
            exact absurd (hpow.symm.trans hpc') (by simp)
          · obtain ⟨jb0, hjb0, hst0, hops0, htk0⟩ := hv.done_res i' p' r' j' hx hpc' hj'
            by_cases hjj : j' = j
            · subst hjj
              rw [hjb] at hjb0
              cases hjb0
              rw [hset] at hst0
              cases hst0
            · exact ⟨jb0, by rw [get?_set_other _ (fun hh => hjj hh.symm)]; exact hjb0,
                hst0, hops0, htk0⟩
        · intro i' p' r' hp' hpc' hj'
          rcases get?_set_cases hp' with ⟨hi, hx⟩ | ⟨hi, hx⟩
          · subst hx
            exact absurd (hpow.symm.trans hpc') (by simp)
          · exact hv.done_joined i' p' r' hx hpc' hj'
      | yield =>
        rw [jobStep_yield hset hsc]
        refine ⟨?_, hv.run_keys, ?_, hv.start_clean, ?_, ?_, ?_, ?_, hv.done_joined⟩
        · intro t' j' hmem
          obtain ⟨jb0, hjb0, htk0, hst0⟩ := hv.run_job t' j' hmem
          by_cases hjj : j' = j
          · subst hjj
            rw [hjb] at hjb0
            cases hjb0
            exact ⟨_, get?_set_same _ hjb, htk0, hst0⟩
          · exact ⟨jb0, by rw [get?_set_other _ (fun hh => hjj hh.symm)]; exact hjb0,
              htk0, hst0⟩
        · intro j' jb0 hjb0 hpend
          rcases get?_set_cases hjb0 with ⟨hjj, hx⟩ | ⟨hjj, hx⟩
          · subst hx
            subst hjj
            exact hv.job_run j' jb hjb hset
          · exact hv.job_run j' jb0 hx hpend
        · intro i' p' j' hp' hpc'
          obtain ⟨hck, hjo, jb0, hjb0, htk0⟩ := hv.wait_pc i' p' j' hp' hpc'
          by_cases hjj : j' = j
          · subst hjj
            rw [hjb] at hjb0
            cases hjb0
            exact ⟨hck, hjo, _, get?_set_same _ hjb, htk0⟩
          · exact ⟨hck, hjo, jb0,
              by rw [get?_set_other _ (fun hh => hjj hh.symm)]; exact hjb0, htk0⟩
        · intro i' p' j' hp' hpc'
          obtain ⟨jb0, hjb0, how⟩ := hv.own_pc i' p' j' hp' hpc'
          by_cases hjj : j' = j
          · subst hjj
            rw [hjb] at hjb0
            cases hjb0
            exact ⟨_, get?_set_same _ hjb, how⟩
          · exact ⟨jb0, by rw [get?_set_other _ (fun hh => hjj hh.symm)]; exact hjb0, how⟩
        · intro j' jb0 hjb0
          rcases get?_set_cases hjb0 with ⟨hjj, hx⟩ | ⟨hjj, hx⟩
          · subst hx
            subst hjj
            obtain ⟨po, hpo, hcase, hjo, hops, htk0⟩ := hv.owner_pc j' jb hjb
            exact ⟨po, hpo, hcase, hjo, hops, htk0⟩
          · exact hv.owner_pc j' jb0 hx
        · intro i' p' r' j' hp' hpc' hj'
          obtain ⟨jb0, hjb0, hst0, hops0, htk0⟩ := hv.done_res i' p' r' j' hp' hpc' hj'
          by_cases hjj : j' = j
          · subst hjj
            rw [hjb] at hjb0
            cases hjb0
            rw [hset] at hst0
            cases hst0
          · exact ⟨jb0, by rw [get?_set_other _ (fun hh => hjj hh.symm)]; exact hjb0,
              hst0, hops0, htk0⟩
  · rw [jobStep_already hset]
    exact hv

theorem inv_step (s : State) (tk : Task) (hv : Inv s) : Inv (step s tk) := by
  cases tk with
  | proc i => rw [step_proc]; exact inv_procStep hv i
  | job j =>
    rcases hjb : s.jobs.get? j with _ | jb
    · rw [step_job_none hjb]; exact hv
    · rw [step_job_some hjb]; exact inv_jobStep hv hjb

theorem inv_run (s : State) (σ : List Task) (hv : Inv s) : Inv (run s σ) := by
  induction σ generalizing s with
  | nil => exact hv
  | cons tk rest ih => exact ih _ (inv_step s tk hv)

/-- Every state reachable from an initial state satisfies the invariant. -/
theorem inv_reachable (ps : List (Option String × Handler)) (σ : List Task) :
    Inv (run (initState ps) σ) :=
  inv_run _ σ (inv_initState ps)

/-- A list with an element satisfying `P` at a unique position has
exactly one element satisfying `P`. -/
theorem length_filter_eq_one {α : Type} {l : List α} {P : α → Bool}
    (hex : ∃ n x, l.get? n = some x ∧ P x)
    (huniq : ∀ n₁ n₂ x₁ x₂, l.get? n₁ = some x₁ → l.get? n₂ = some x₂ →
      P x₁ → P x₂ → n₁ = n₂) :
    (l.filter P).length = 1 := by
  induction l with
  | nil =>
    obtain ⟨n, x, h, -⟩ := hex
    simp at h
  | cons a l ih =>
    by_cases hPa : P a
    · rw [List.filter_cons_of_pos hPa]
      have hnil : l.filter P = [] := by
        rw [List.filter_eq_nil_iff]
        intro x hx hPx
        obtain ⟨n, hn⟩ := List.get?_of_mem hx
        have h0 := huniq 0 (n + 1) a x rfl (by simpa using hn) hPa hPx
        cases h0
      rw [hnil]
      rfl
    · rw [List.filter_cons_of_neg hPa]
      apply ih
      · obtain ⟨n, x, hn, hPx⟩ := hex
        cases n with
        | zero =>
          have hax : a = x := by simpa using hn
          exact absurd (hax ▸ hPx) hPa
        | succ n => exact ⟨n, x, by simpa using hn, hPx⟩
      · intro n₁ n₂ x₁ x₂ h1 h2 hp1 hp2
        have := huniq (n₁ + 1) (n₂ + 1) x₁ x₂ (by simpa using h1) (by simpa using h2) hp1 hp2
        omega

/-- Once a guarded call has attached itself to a job, one scheduler step
never detaches it. -/
theorem joined_stable_step {s : State} (hv : Inv s) (tk : Task) {i : Nat} {p : Proc}
    {j : Nat} (hp : s.procs.get? i = some p) (hj : p.joined = some j) :
    ∃ p', (step s tk).procs.get? i = some p' ∧ p'.joined = some j := by
  cases tk with
  | proc i' =>
    rw [step_proc]
    rcases hp' : s.procs.get? i' with _ | p0
    · rw [procStep_nop hp']
      exact ⟨p, hp, hj⟩
    · rcases hpc0 : p0.pc with _ | j0 | j0 | r0
      · rw [procStep_start hp' hpc0]
        have hstart : i ≠ i' := by
          intro hii
          rw [← hii, hp] at hp'
          cases hp'
          rw [(hv.start_clean i p hp hpc0).2] at hj
          cases hj
        rcases htok0 : p0.token with _ | t0
        · rw [startStep_missing htok0]
          exact ⟨p, by rw [get?_set_other _ (fun hh => hstart hh.symm)]; exact hp, hj⟩
        · by_cases ht0 : t0 = ""
          · subst ht0
            rw [startStep_empty htok0]
            exact ⟨p, by rw [get?_set_other _ (fun hh => hstart hh.symm)]; exact hp, hj⟩
          · rcases hrun0 : mapGet s.running t0 with _ | j1
            · rw [startStep_create htok0 ht0 hrun0]
              exact ⟨p, by rw [get?_set_other _ (fun hh => hstart hh.symm)]; exact hp, hj⟩
            · rw [startStep_join htok0 ht0 hrun0]
              exact ⟨p, by rw [get?_set_other _ (fun hh => hstart hh.symm)]; exact hp, hj⟩
      · rcases hjb0 : s.jobs.get? j0 with _ | jb0
        · rw [procStep_wait_nojob hp' hpc0 hjb0]
          exact ⟨p, hp, hj⟩
        · rcases hr0 : jb0.settled with _ | r1
          · rw [procStep_wait_pending hp' hpc0 hjb0 hr0]
            exact ⟨p, hp, hj⟩
          · rw [procStep_wait_settled hp' hpc0 hjb0 hr0]
            by_cases hii : i = i'
            · subst hii
              rw [hp] at hp'
              cases hp'
              exact ⟨_, get?_set_same _ hp, hj⟩
            · exact ⟨p, by rw [get?_set_other _ (fun hh => hii hh.symm)]; exact hp, hj⟩
      · rcases hjb0 : s.jobs.get? j0 with _ | jb0
        · rw [procStep_owner_nojob hp' hpc0 hjb0]
          exact ⟨p, hp, hj⟩
        · rcases hr0 : jb0.settled with _ | r1
          · rw [procStep_owner_pending hp' hpc0 hjb0 hr0]
            exact ⟨p, hp, hj⟩
          · rw [procStep_owner_settled hp' hpc0 hjb0 hr0]
            by_cases hii : i = i'
            · subst hii
              rw [hp] at hp'
              cases hp'
              exact ⟨_, get?_set_same _ hp, hj⟩
            · exact ⟨p, by rw [get?_set_other _ (fun hh => hii hh.symm)]; exact hp, hj⟩
      · rw [procStep_done hp' hpc0]
        exact ⟨p, hp, hj⟩
  | job j0 =>
    rcases hjb0 : s.jobs.get? j0 with _ | jb0
    · rw [step_job_none hjb0]
      exact ⟨p, hp, hj⟩
    · rw [step_job_some hjb0]
      rcases hset0 : jb0.settled with _ | r0
      · rcases hsc0 : jb0.script with _ | ⟨h1, rest⟩
        · rw [jobStep_settle hset0 hsc0]
          exact ⟨p, hp, hj⟩
        · cases h1 with
          | setCookie op =>
            obtain ⟨po, hpo, -, -, -, -⟩ := hv.owner_pc j0 jb0 hjb0
            rw [jobStep_setCookie hset0 hsc0 hpo]
            by_cases hii : i = jb0.owner
            · subst hii
              rw [hp] at hpo
              cases hpo
              exact ⟨_, get?_set_same _ hp, hj⟩
            · exact ⟨p, by rw [get?_set_other _ (fun hh => hii hh.symm)]; exact hp, hj⟩
          | yield =>
            rw [jobStep_yield hset0 hsc0]
            exact ⟨p, hp, hj⟩
      · rw [jobStep_already hset0]
        exact ⟨p, hp, hj⟩

/-- `joined` is stable under any whole schedule. -/
theorem joined_stable_run (σ : List Task) :
    ∀ {s : State}, Inv s → ∀ {i : Nat} {p : Proc} {j : Nat},
      s.procs.get? i = some p → p.joined = some j →
      ∃ p', (run s σ).procs.get? i = some p' ∧ p'.joined = some j := by
  induction σ with
  | nil =>
    intro s _ i p j hp hj
    exact ⟨p, hp, hj⟩
  | cons tk rest ih =>
    intro s hv i p j hp hj
    obtain ⟨p1, hp1, hj1⟩ := joined_stable_step hv tk hp hj
    exact ih (inv_step s tk hv) hp1 hj1

/-! ## The claims -/

/-- Claim C1: for every token `t`, if at least one guarded call carrying
`t` has passed its entry point (N ≥ 1 concurrent calls with the same
token) and no job for `t` has settled yet (every call arrived before the
first one's job settles), then in every schedule the underlying handler
body has been started exactly once for `t` — the get-or-create prefix of
`wrapped` runs without a suspension point, so no interleaving can create
a second job for a registered token. -/
theorem C1_single_execution (ps : List (Option String × Handler)) (σ : List Task)
    (t : String) (ht : t ≠ "")
    (hstart : ∃ i p, (run (initState ps) σ).procs.get? i = some p ∧
      p.token = some t ∧ p.pc ≠ PC.start)
    (hunsettled : ∀ jb ∈ (run (initState ps) σ).jobs, jb.token = t → jb.settled = none) :
    invocationsFor (run (initState ps) σ) t = 1 := by
  have hv := inv_reachable ps σ
  obtain ⟨i, p, hp, htok, hpc⟩ := hstart
  have hex : ∃ n jb, (run (initState ps) σ).jobs.get? n = some jb ∧ jb.token = t := by
    rcases hpcc : p.pc with _ | j | j | r
    · exact absurd hpcc hpc
    · obtain ⟨-, -, jb, hjb, htk⟩ := hv.wait_pc i p j hp hpcc
      rw [htok] at htk
      exact ⟨j, jb, hjb, (Option.some.inj htk).symm⟩
    · obtain ⟨jb, hjb, how⟩ := hv.own_pc i p j hp hpcc
      obtain ⟨-, -, -, htk⟩ := owner_pc_cases hv hjb (by rwa [how])
      rw [htok] at htk
      exact ⟨j, jb, hjb, (Option.some.inj htk).symm⟩
    · rcases hjo : p.joined with _ | j
      · rcases hv.done_joined i p r hp hpcc hjo with hnone | hemp
        · rw [htok] at hnone
          cases hnone
        · rw [htok] at hemp
          exact absurd (Option.some.inj hemp) ht
      · obtain ⟨jb, hjb, -, -, htk⟩ := hv.done_res i p r j hp hpcc hjo
        rw [htok] at htk
        exact ⟨j, jb, hjb, (Option.some.inj htk).symm⟩
  have huniq : ∀ n₁ n₂ jb₁ jb₂, (run (initState ps) σ).jobs.get? n₁ = some jb₁ →
      (run (initState ps) σ).jobs.get? n₂ = some jb₂ →
      jb₁.token = t → jb₂.token = t → n₁ = n₂ := by
    intro n₁ n₂ jb₁ jb₂ h1 h2 hk1 hk2
    have hs1 : jb₁.settled = none := hunsettled jb₁ (List.get?_mem h1) hk1
    have hs2 : jb₂.settled = none := hunsettled jb₂ (List.get?_mem h2) hk2
    have hm1 := hv.job_run n₁ jb₁ h1 hs1
    have hm2 := hv.job_run n₂ jb₂ h2 hs2
    rw [hk1] at hm1
    rw [hk2] at hm2
    exact nodup_key_eq hv.run_keys hm1 hm2
  unfold invocationsFor
  apply length_filter_eq_one
  · obtain ⟨n, jb, hn, hk⟩ := hex
    exact ⟨n, jb, hn, by simpa using hk⟩
  · intro n₁ n₂ x₁ x₂ h1 h2 hb1 hb2
    exact huniq n₁ n₂ x₁ x₂ h1 h2 (by simpa using hb1) (by simpa using hb2)

/-- Claim C2: any two guarded calls that resolved after attaching to the
same job `j` — the owner and every duplicate that joined before
settlement — observe the same outcome value, whatever its variant. -/
theorem C2_identical_result (ps : List (Option String × Handler)) (σ : List Task)
    (i i' j : Nat) (p p' : Proc) (r r' : Res)
    (hp : (run (initState ps) σ).procs.get? i = some p)
    (hp' : (run (initState ps) σ).procs.get? i' = some p')
    (hr : p.pc = .done r) (hr' : p'.pc = .done r')
    (hj : p.joined = some j) (hj' : p'.joined = some j) :
    r = r' := by
  have hv := inv_reachable ps σ
  obtain ⟨jb, hjb, hst, -, -⟩ := hv.done_res i p r j hp hr hj
  obtain ⟨jb', hjb', hst', -, -⟩ := hv.done_res i' p' r' j hp' hr' hj'
  rw [hjb] at hjb'
  cases hjb'
  rw [hst] at hst'
  exact Option.some.inj hst'

/-- Claim C3: when the job settled by the owner's handler throwing `e`,
every caller that attached to that job and resolved rethrows exactly
`e`; and once every job for the token has settled, the registry holds no
entry for it — the `.finally` cleanup runs on success and failure
alike. -/
theorem C3_error_fanout (ps : List (Option String × Handler)) (σ : List Task)
    (j : Nat) (jb : Job) (e : Val)
    (hjb : (run (initState ps) σ).jobs.get? j = some jb)
    (hst : jb.settled = some (.thrown e)) :
    (∀ i p r, (run (initState ps) σ).procs.get? i = some p → p.joined = some j →
      p.pc = .done r → r = .thrown e) ∧
    ((∀ jb' ∈ (run (initState ps) σ).jobs, jb'.token = jb.token → jb'.settled ≠ none) →
      mapGet (run (initState ps) σ).running jb.token = none) := by
  have hv := inv_reachable ps σ
  constructor
  · intro i p r hp hj hpc
    obtain ⟨jb0, hjb0, hst0, -, -⟩ := hv.done_res i p r j hp hpc hj
    rw [hjb] at hjb0
    cases hjb0
    rw [hst] at hst0
    exact (Option.some.inj hst0).symm
  · intro hall
    rcases hm : mapGet (run (initState ps) σ).running jb.token with _ | j0
    · rfl
    · obtain ⟨jb0, hjb0, htk0, hpend0⟩ := hv.run_job jb.token j0 (mapGet_mem hm)
      exact absurd hpend0 (hall jb0 (List.get?_mem hjb0) htk0)

/-- Claim C4: side-effect replay.  Every caller that resolved after
attaching to job `j` ends with its own response context holding exactly
the job's recorded op sequence, in recording order; and at every instant
the owner's context holds exactly the ops recorded so far — each write
reached it the moment the handler issued it. -/
theorem C4_side_effect_replay (ps : List (Option String × Handler)) (σ : List Task) :
    (∀ i p r j, (run (initState ps) σ).procs.get? i = some p → p.pc = .done r →
      p.joined = some j →
      ∃ jb, (run (initState ps) σ).jobs.get? j = some jb ∧ p.cookies = jb.ops) ∧
    (∀ j jb, (run (initState ps) σ).jobs.get? j = some jb →
      ∃ po, (run (initState ps) σ).procs.get? jb.owner = some po ∧
        po.cookies = jb.ops) := by
  have hv := inv_reachable ps σ
  constructor
  · intro i p r j hp hpc hj
    obtain ⟨jb, hjb, -, hops, -⟩ := hv.done_res i p r j hp hpc hj
    exact ⟨jb, hjb, hops⟩
  · intro j jb hjb
    obtain ⟨po, hpo, -, -, hops, -⟩ := hv.owner_pc j jb hjb
    exact ⟨po, hpo, hops⟩

/-- Claim C5: a guarded call whose request carries no token cookie
resolves, in one step and in any state whatsoever, to
`fail(400, { message: 'Form token missing' })`; the registry and the
job list are untouched (no lookup result is even consulted) and no
handler execution is started. -/
theorem C5_missing_token (s : State) (i : Nat) (p : Proc)
    (hp : s.procs.get? i = some p) (hpc : p.pc = .start) (ht : p.token = none) :
    (step s (.proc i)).running = s.running ∧
    (step s (.proc i)).jobs = s.jobs ∧
    (step s (.proc i)).procs.get? i =
      some { p with pc := .done (.ok (.actionFailure 400 "Form token missing")) } := by
  rw [step_proc, procStep_start hp hpc, startStep_missing ht]
  exact ⟨rfl, rfl, get?_set_same _ hp⟩

/-- Claim C6: registry invariants, in every reachable state: at most one
entry per token; an entry's job has not yet settled; and when no entry
exists for a token, every job carrying that token (if any was ever
started) has already settled and been cleaned up. -/
theorem C6_registry_invariant (ps : List (Option String × Handler)) (σ : List Task) :
    (∀ t j j', (t, j) ∈ (run (initState ps) σ).running →
      (t, j') ∈ (run (initState ps) σ).running → j = j') ∧
    (∀ t j, (t, j) ∈ (run (initState ps) σ).running →
      ∃ jb, (run (initState ps) σ).jobs.get? j = some jb ∧ jb.token = t ∧
        jb.settled = none) ∧
    (∀ t, mapGet (run (initState ps) σ).running t = none →
      ∀ jb ∈ (run (initState ps) σ).jobs, jb.token = t → jb.settled ≠ none) := by
  have hv := inv_reachable ps σ
  refine ⟨?_, hv.run_job, ?_⟩
  · intro t j j' h1 h2
    exact nodup_key_eq hv.run_keys h1 h2
  · intro t hnone jb hmem htk hst
    obtain ⟨n, hn⟩ := List.get?_of_mem hmem
    have hm := hv.job_run n jb hn hst
    rw [htk] at hm
    exact mapGet_eq_none hnone n hm

/-- Claim C7: once the registry holds no entry for `t` (in particular
after the previous job for `t` settled and was removed), a new guarded
call presenting `t` creates a fresh job and starts its handler again:
the guard deduplicates only overlapping calls, not token reuse across
non-overlapping windows. -/
theorem C7_post_settlement (s : State) (i : Nat) (p : Proc) (t : String)
    (hp : s.procs.get? i = some p) (hpc : p.pc = .start) (ht : p.token = some t)
    (hne : t ≠ "") (hnone : mapGet s.running t = none) :
    (step s (.proc i)).jobs.length = s.jobs.length + 1 ∧
    (step s (.proc i)).jobs.get? s.jobs.length =
      some { token := t, owner := i, ops := [], script := p.handler.steps,
             result := p.handler.result, settled := none } ∧
    mapGet (step s (.proc i)).running t = some s.jobs.length ∧
    (step s (.proc i)).procs.get? i =
      some { p with pc := .owner s.jobs.length, joined := some s.jobs.length } := by
  rw [step_proc, procStep_start hp hpc, startStep_create ht hne hnone]
  refine ⟨by simp, get?_append_len _ _, ?_, get?_set_same _ hp⟩
  simp [mapGet]

/-- Claim C8 (counterexample): the replay loop does not skip an op the
target context cannot apply — it applies each op unconditionally and the
failure propagates.  Replaying the single inapplicable `blockedOp`
raises `"cannot apply"` instead of skipping it (which would leave the
context unchanged and succeed with `.ok []`). -/
theorem C8_counterexample :
    replayOps fallibleSet [blockedOp] [] = .error "cannot apply" ∧
    replayOps fallibleSet [blockedOp] [] ≠ .ok [] := by
  constructor
  · rfl
  · intro h
    cases h.symm.trans (rfl : replayOps fallibleSet [blockedOp] [] = .error "cannot apply")

/-- Claim C8 (amended): during replay, every recorded op is applied to
the duplicate caller's context unconditionally; an op the context cannot
apply makes the replay raise that failure — it is not skipped. -/
theorem C8_amended {Ctx : Type} (apply : CookieOp → Ctx → Except String Ctx)
    (op : CookieOp) (rest : List CookieOp) (c : Ctx) (e : String)
    (h : apply op c = .error e) :
    replayOps apply (op :: rest) c = .error e := by
  unfold replayOps
  rw [h]

/-- Claim C9: a present-but-empty token cookie takes the same branch as
an absent one — `if (!token)` is a falsiness check — so the call
resolves to `fail(400, { message: 'Form token missing' })` with no
registry interaction and no handler invocation. -/
theorem C9_empty_token (s : State) (i : Nat) (p : Proc)
    (hp : s.procs.get? i = some p) (hpc : p.pc = .start) (ht : p.token = some "") :
    (step s (.proc i)).running = s.running ∧
    (step s (.proc i)).jobs = s.jobs ∧
    (step s (.proc i)).procs.get? i =
      some { p with pc := .done (.ok (.actionFailure 400 "Form token missing")) } := by
  rw [step_proc, procStep_start hp hpc, startStep_empty ht]
  exact ⟨rfl, rfl, get?_set_same _ hp⟩

/-- Claim C10: the registry is one module-level map keyed only by the
token, shared by every wrapped action.  A guarded call whose own handler
is arbitrary (`p.handler` is unconstrained) and whose token already has
an in-flight job `j` joins that job without creating any new one (its
own handler is never invoked), and when it later resolves it carries the
joined job's settled outcome and its recorded ops — the other wrapper's
result and side effects. -/
theorem C10_shared_registry (ps : List (Option String × Handler)) (σ : List Task)
    (i j : Nat) (p : Proc) (t : String)
    (hp : (run (initState ps) σ).procs.get? i = some p)
    (hpc : p.pc = .start) (ht : p.token = some t) (hne : t ≠ "")
    (hj : mapGet (run (initState ps) σ).running t = some j) :
    (step (run (initState ps) σ) (.proc i)).jobs = (run (initState ps) σ).jobs ∧
    (step (run (initState ps) σ) (.proc i)).procs.get? i =
      some { p with pc := .waiting j, joined := some j } ∧
    (∃ jb, (run (initState ps) σ).jobs.get? j = some jb ∧ jb.token = t ∧
      jb.settled = none) ∧
    (∀ σ' p2 r,
      (run (step (run (initState ps) σ) (.proc i)) σ').procs.get? i = some p2 →
      p2.pc = .done r →
      ∃ jb2, (run (step (run (initState ps) σ) (.proc i)) σ').jobs.get? j = some jb2 ∧
        jb2.settled = some r ∧ p2.cookies = jb2.ops) := by
  have hv := inv_reachable ps σ
  have hjoin : step (run (initState ps) σ) (.proc i) =
      { run (initState ps) σ with
        procs := (run (initState ps) σ).procs.set i
          { p with pc := .waiting j, joined := some j } } := by
    rw [step_proc, procStep_start hp hpc, startStep_join ht hne hj]
  have hv1 : Inv (step (run (initState ps) σ) (.proc i)) := inv_step _ _ hv
  have hp1 : (step (run (initState ps) σ) (.proc i)).procs.get? i =
      some { p with pc := .waiting j, joined := some j } := by
    rw [hjoin]
    exact get?_set_same _ hp
  refine ⟨by rw [hjoin], hp1, hv.run_job t j (mapGet_mem hj), ?_⟩
  intro σ' p2 r hp2 hpc2
  have hv2 : Inv (run (step (run (initState ps) σ) (.proc i)) σ') :=
    inv_run _ σ' hv1
  obtain ⟨p3, hp3, hj3⟩ := joined_stable_run σ' hv1 hp1 rfl
  rw [hp2] at hp3
  cases hp3
  obtain ⟨jb2, hjb2, hst2, hops2, -⟩ := hv2.done_res i p2 r j hp2 hpc2 hj3
  exact ⟨jb2, hjb2, hst2, hops2⟩

/-! ## Concrete witnesses -/

/-- C1 at the spec's concrete scenario: three concurrent calls with
token `"abc123"`, none settled yet — one handler invocation. -/
theorem C1_witness :
    invocationsFor (run (initState demoPs) [.proc 0, .proc 1, .proc 2, .job 0]) "abc123" = 1 :=
  C1_single_execution demoPs [.proc 0, .proc 1, .proc 2, .job 0] "abc123" (by decide)
    ⟨0, { token := some "abc123", handler := demoHandler, cookies := [demoOp1],
          pc := .owner 0, joined := some 0 }, by decide, by decide, by decide⟩
    (by decide)

/-- C2 at the concrete scenario: callers 1 and 2 both resolved from job
0 with the redirect outcome. -/
theorem C2_witness :
    Res.thrown (Val.redirect 303 "/") = Res.thrown (Val.redirect 303 "/") :=
  C2_identical_result demoPs demoSched 1 2 0
    { token := some "abc123", handler := demoHandler, cookies := [demoOp1],
      pc := .done (.thrown (.redirect 303 "/")), joined := some 0 }
    { token := some "abc123", handler := demoHandler, cookies := [demoOp1],
      pc := .done (.thrown (.redirect 303 "/")), joined := some 0 }
    (.thrown (.redirect 303 "/")) (.thrown (.redirect 303 "/"))
    (by decide) (by decide) rfl rfl rfl rfl

/-- C3 at the concrete scenario: after the thrown redirect settled job
0, the registry no longer holds `"abc123"`. -/
theorem C3_witness :
    mapGet (run (initState demoPs) demoSched).running "abc123" = none :=
  (C3_error_fanout demoPs demoSched 0
    { token := "abc123", owner := 0, ops := [demoOp1], script := [],
      result := .thrown (.redirect 303 "/"), settled := some (.thrown (.redirect 303 "/")) }
    (.redirect 303 "/") (by decide) rfl).2 (by decide)

/-- C4 at the concrete scenario: duplicate caller 1 ended with exactly
job 0's recorded ops on its own context. -/
theorem C4_witness :
    ∃ jb, (run (initState demoPs) demoSched).jobs.get? 0 = some jb ∧
      ([demoOp1] : List CookieOp) = jb.ops :=
  (C4_side_effect_replay demoPs demoSched).1 1
    { token := some "abc123", handler := demoHandler, cookies := [demoOp1],
      pc := .done (.thrown (.redirect 303 "/")), joined := some 0 }
    (.thrown (.redirect 303 "/")) 0 (by decide) rfl rfl

/-- C5 with a busy registry: the tokenless call resolves to the fixed
failure and the state is otherwise untouched. -/
theorem C5_witness :
    (step missingS (.proc 1)).running = missingS.running ∧
    (step missingS (.proc 1)).jobs = missingS.jobs ∧
    (step missingS (.proc 1)).procs.get? 1 =
      some { token := none, handler := gHandler, cookies := [],
             pc := .done (.ok (.actionFailure 400 "Form token missing")), joined := none } :=
  C5_missing_token missingS 1
    { token := none, handler := gHandler, cookies := [], pc := .start, joined := none }
    (by decide) rfl rfl

/-- C6 at a state with one in-flight job: the entry for `"tok"` points
at a pending job carrying that token. -/
theorem C6_witness :
    ∃ jb, (run (initState [(some "tok", demoHandler)]) [.proc 0]).jobs.get? 0 = some jb ∧
      jb.token = "tok" ∧ jb.settled = none :=
  (C6_registry_invariant [(some "tok", demoHandler)] [.proc 0]).2.1 "tok" 0 (by decide)

/-- C7 after the first job for `"tok"` settled and was removed: the
second call creates a fresh job and starts its handler again. -/
theorem C7_witness :
    (step reuseS (.proc 1)).jobs.length = reuseS.jobs.length + 1 ∧
    (step reuseS (.proc 1)).jobs.get? reuseS.jobs.length =
      some { token := "tok", owner := 1, ops := [], script := demoHandler.steps,
             result := demoHandler.result, settled := none } ∧
    mapGet (step reuseS (.proc 1)).running "tok" = some reuseS.jobs.length ∧
    (step reuseS (.proc 1)).procs.get? 1 =
      some { token := some "tok", handler := demoHandler, cookies := [],
             pc := .owner reuseS.jobs.length, joined := some reuseS.jobs.length } :=
  C7_post_settlement reuseS 1
    { token := some "tok", handler := demoHandler, cookies := [], pc := .start, joined := none }
    "tok" (by decide) rfl rfl (by decide) (by decide)

/-- C8 (amended) at the concrete inapplicable op. -/
theorem C8_amended_witness :
    replayOps fallibleSet [blockedOp] [] = .error "cannot apply" :=
  C8_amended fallibleSet blockedOp [] [] "cannot apply" rfl

/-- C9 with a busy registry: the empty-string token takes the
missing-token branch. -/
theorem C9_witness :
    (step emptyS (.proc 1)).running = emptyS.running ∧
    (step emptyS (.proc 1)).jobs = emptyS.jobs ∧
    (step emptyS (.proc 1)).procs.get? 1 =
      some { token := some "", handler := gHandler, cookies := [],
             pc := .done (.ok (.actionFailure 400 "Form token missing")), joined := none } :=
  C9_empty_token emptyS 1
    { token := some "", handler := gHandler, cookies := [], pc := .start, joined := none }
    (by decide) rfl rfl

/-- C10 with two distinct wrapped handlers: the `gHandler` call joins
`demoHandler`'s in-flight job for the shared token. -/
theorem C10_witness :
    (step mixedS (.proc 1)).procs.get? 1 =
      some { token := some "tok", handler := gHandler, cookies := [],
             pc := .waiting 0, joined := some 0 } :=
  (C10_shared_registry mixedPs [.proc 0] 1 0
    { token := some "tok", handler := gHandler, cookies := [], pc := .start, joined := none }
    "tok" (by decide) rfl rfl (by decide) (by decide)).2.1

end OnceForm
